import Mathlib

/-!
Verification of the conversational-agent orchestration and streaming layer of
the `ai-studio-2` backend (`src/backend/app/chat/`): the plan agent
(`plan_agent.py`), the basic ReAct agent (`langgraph_agent.py`), the chat
service streaming functions (`service.py`), the in-memory session store
(`memory_store.py`) and the model client pool (`llm_client.py`).

The Python sources are embedded shallowly: pure functions become Lean
functions, the LangGraph executions become oracle-driven recursions (the
model responses and tool results are external collaborators, supplied as
explicit inputs), and the SSE event translators become folds over event
lists.  Machine-irrelevant details (timestamps, the prompt text sent to the
model, the wire encoding of SSE frames) are abstracted; everything a claim
touches is translated from the source.
-/

namespace AiStudio

/-! ## JSON values

Model of the Python values produced by `json.loads`: `num` covers the
integer fragment (the planning responses parsed by `plan_agent.py` contain
booleans, strings and integers; floats never appear there and are not
modelled).  Objects are association lists; the JSON decoder below inserts
duplicate keys with `pyDictUpd`, which mirrors Python dict assignment
(existing key keeps its position, value replaced), so `jsonGet` can use the
first matching key. -/

inductive Json where
  | null : Json
  | bool : Bool → Json
  | num : Int → Json
  | str : String → Json
  | arr : List Json → Json
  | obj : List (String × Json) → Json
  deriving Repr

/-- Python dict assignment `d[k] = v`: replace the value at an existing key
in place, otherwise append the binding. -/
def pyDictUpd (kvs : List (String × Json)) (k : String) (v : Json) :
    List (String × Json) :=
  if kvs.any (fun kv => kv.1 = k) then
    kvs.map (fun kv => if kv.1 = k then (k, v) else kv)
  else kvs ++ [(k, v)]

/-- Python `d.get(key)` on a dict (`None` when absent); non-dicts have no keys. -/
def jsonGet (j : Json) (k : String) : Option Json :=
  match j with
  | .obj kvs => (kvs.find? (fun kv => kv.1 = k)).map (fun kv => kv.2)
  | _ => none

/-- Python `key in d` for a dict. -/
def jsonMember (j : Json) (k : String) : Bool :=
  match j with
  | .obj kvs => kvs.any (fun kv => kv.1 = k)
  | _ => false

/-- Python truthiness of a parsed JSON value. -/
def jsonTruthy : Json → Bool
  | .null => false
  | .bool b => b
  | .num n => n ≠ 0
  | .str s => s ≠ ""
  | .arr xs => !xs.isEmpty
  | .obj kvs => !kvs.isEmpty

/-- Python iteration (`enumerate(x)`) over a parsed JSON value: lists yield
their elements, strings yield their characters as one-character strings,
dicts yield their keys; numbers, booleans and `None` raise `TypeError`. -/
def pyIterate : Json → Except Unit (List Json)
  | .arr xs => .ok xs
  | .str s => .ok (s.toList.map (fun ch => .str (String.singleton ch)))
  | .obj kvs => .ok (kvs.map (fun kv => .str kv.1))
  | _ => .error ()

/-! ### A decoder for the JSON fragment used by the planning phase

Model of the stdlib `json.loads` restricted to `null`/`true`/`false`,
integers, strings with the simple escapes, arrays and objects (no floats,
exponents or `\u` escapes — the planning protocol never produces them;
inputs outside the fragment simply fail to parse, which is also a
`json.loads` failure for the malformed ones we evaluate). -/

def jsonSkipWs : List Char → List Char
  | c :: cs =>
      if c = ' ' ∨ c = '\t' ∨ c = '\n' ∨ c = '\r' then jsonSkipWs cs else c :: cs
  | [] => []

/-- Decode the body of a string literal (after the opening quote); returns
the decoded characters and the rest after the closing quote. -/
def jsonStrChars : List Char → Option (List Char × List Char)
  | [] => none
  | '"' :: rest => some ([], rest)
  | '\\' :: c :: rest =>
      let esc : Option Char :=
        if c = '"' then some '"'
        else if c = '\\' then some '\\'
        else if c = '/' then some '/'
        else if c = 'n' then some '\n'
        else if c = 't' then some '\t'
        else if c = 'r' then some '\r'
        else none
      match esc, jsonStrChars rest with
      | some e, some (s, r) => some (e :: s, r)
      | _, _ => none
  | '\\' :: [] => none
  | c :: rest =>
      match jsonStrChars rest with
      | some (s, r) => some (c :: s, r)
      | none => none

def jsonDigits : List Char → List Char × List Char
  | [] => ([], [])
  | c :: rest =>
      if c.isDigit then
        let (ds, r) := jsonDigits rest
        (c :: ds, r)
      else ([], c :: rest)

def jsonDigitsToNat (ds : List Char) : Nat :=
  ds.foldl (fun acc c => acc * 10 + (c.toNat - '0'.toNat)) 0

/-- Decode an integer literal starting at the given characters. -/
def jsonNum (cs : List Char) : Option (Json × List Char) :=
  match cs with
  | '-' :: rest =>
      match jsonDigits rest with
      | ([], _) => none
      | (ds, r) => some (.num (-(jsonDigitsToNat ds : Int)), r)
  | _ =>
      match jsonDigits cs with
      | ([], _) => none
      | (ds, r) => some (.num (jsonDigitsToNat ds : Int), r)

def jsonLit (lit : List Char) (cs : List Char) : Option (List Char) :=
  match lit, cs with
  | [], rest => some rest
  | l :: ls, c :: rest => if c = l then jsonLit ls rest else none
  | _ :: _, [] => none

mutual

def jsonVal (fuel : Nat) (cs : List Char) : Option (Json × List Char) :=
  match fuel with
  | 0 => none
  | fuel + 1 =>
      match jsonSkipWs cs with
      | [] => none
      | c :: rest =>
          if c = 'n' then (jsonLit ['u', 'l', 'l'] rest).map (fun r => (.null, r))
          else if c = 't' then (jsonLit ['r', 'u', 'e'] rest).map (fun r => (.bool true, r))
          else if c = 'f' then (jsonLit ['a', 'l', 's', 'e'] rest).map (fun r => (.bool false, r))
          else if c = '"' then (jsonStrChars rest).map (fun p => (.str (String.mk p.1), p.2))
          else if c = '\x7b' then
            match jsonSkipWs rest with
            | '\x7d' :: r => some (.obj [], r)
            | r => jsonMembers fuel r []
          else if c = '[' then
            match jsonSkipWs rest with
            | ']' :: r => some (.arr [], r)
            | r => jsonElems fuel r []
          else jsonNum (c :: rest)

def jsonElems (fuel : Nat) (cs : List Char) (acc : List Json) :
    Option (Json × List Char) :=
  match fuel with
  | 0 => none
  | fuel + 1 =>
      match jsonVal fuel cs with
      | none => none
      | some (v, r) =>
          match jsonSkipWs r with
          | ',' :: r2 => jsonElems fuel r2 (acc ++ [v])
          | ']' :: r2 => some (.arr (acc ++ [v]), r2)
          | _ => none

def jsonMembers (fuel : Nat) (cs : List Char) (acc : List (String × Json)) :
    Option (Json × List Char) :=
  match fuel with
  | 0 => none
  | fuel + 1 =>
      match jsonSkipWs cs with
      | '"' :: rest =>
          match jsonStrChars rest with
          | none => none
          | some (kcs, r) =>
              match jsonSkipWs r with
              | ':' :: r2 =>
                  match jsonVal fuel r2 with
                  | none => none
                  | some (v, r3) =>
                      let acc2 := pyDictUpd acc (String.mk kcs) v
                      match jsonSkipWs r3 with
                      | ',' :: r4 => jsonMembers fuel r4 acc2
                      | '\x7d' :: r4 => some (.obj acc2, r4)
                      | _ => none
              | _ => none
      | _ => none

end

/-- Model of `json.loads`: decode one value and require only whitespace to
remain. -/
def jsonLoads (s : String) : Option Json :=
  match jsonVal (2 * s.length + 2) s.toList with
  | some (v, r) => if jsonSkipWs r = [] then some v else none
  | none => none

/-! ## Messages and plan steps

`Message` is the closed tagged union of the LangChain message classes used
by the agents (`SystemMessage`, `HumanMessage`, `AIMessage` with its
`tool_calls`, `ToolMessage`).  A `ToolCall` records the call the model
requested together with the string the external tool implementation
returned (tools are external collaborators; their outputs are oracle
data). -/

structure ToolCall where
  name : String
  args : Json
  id : String
  result : String
  deriving Repr

inductive Message where
  | system : String → Message
  | human : String → Message
  | ai : String → List ToolCall → Message
  | tool : String → String → Message
  deriving Repr

/-- One step of the execution plan (`PlanStep` TypedDict in
`plan_agent.py`).  The description is stored exactly as it came out of the
parsed JSON (the source performs no type check on it). -/
structure PlanStep where
  step_number : Nat
  description : Json
  status : String
  deriving Repr

/-- Result of the QUERY node (`_query_node` returns `plan`, `current_step`,
`plan_needed`; its `messages` delta is always empty and is omitted). -/
structure QueryResult where
  plan : List PlanStep
  current_step : Nat
  plan_needed : Bool
  deriving Repr

/-! ## The QUERY node (`LangGraphPlanAgent._query_node`, lines 174-243)

The model response content is either a string or something else (LangChain
content can be a list of blocks); `_query_node` only attempts extraction on
strings. -/

inductive LCContent where
  | str : String → LCContent
  | nonstr : LCContent
  deriving Repr

def idxOfChar (c : Char) : List Char → Option Nat
  | [] => none
  | x :: xs =>
      if x = c then some 0
      else (idxOfChar c xs).map (fun n => n + 1)

/-- Python `s.find(c)` / `s.rfind(c)` paired as in `_query_node`:
`json_start = content.find('\x7b')`, `json_end = content.rfind('\x7d') + 1`,
guarded by `json_start >= 0 and json_end > json_start`; returns the slice
`content[json_start:json_end]` when the guard holds. -/
def extractBraces (s : String) : Option String :=
  let cs := s.toList
  match idxOfChar '\x7b' cs, idxOfChar '\x7d' cs.reverse with
  | some i, some revj =>
      let j := cs.length - 1 - revj
      if j + 1 > i then some (String.mk ((cs.take (j + 1)).drop i)) else none
  | _, _ => none

/-- The try-block of `_query_node` (lines 201-216): extract the brace-window
and run `json.loads` on it; `none` stands for every path that ends in
`plan_data = {"plan_needed": False}` (non-string content, no brace window,
decode failure). -/
def extractParse : LCContent → Option Json
  | .nonstr => none
  | .str s => (extractBraces s).bind jsonLoads

/-- The QUERY node after the model call: parse the response and build the
plan.  `plan_data.get("plan_needed", False)` is tested for truthiness; when
it is truthy and a `"steps"` key exists the steps value is iterated with
Python semantics (`pyIterate`), so a non-iterable steps value raises
(`.error`), a list is taken as-is whatever its element types, and the plan
steps get sequential numbers from 1 with status `"pending"`. -/
def queryNode (content : LCContent) : Except Unit QueryResult :=
  let plan_data := (extractParse content).getD (.obj [("plan_needed", .bool false)])
  let plan_needed := jsonTruthy ((jsonGet plan_data "plan_needed").getD (.bool false))
  if plan_needed ∧ jsonMember plan_data "steps" then
    match pyIterate ((jsonGet plan_data "steps").getD .null) with
    | .error e => .error e
    | .ok steps =>
        .ok { plan := steps.enum.map
                (fun p => { step_number := p.1 + 1, description := p.2, status := "pending" }),
              current_step := 0,
              plan_needed := true }
  else
    .ok { plan := [], current_step := 0, plan_needed := false }

/-! ## The MAIN node (`LangGraphPlanAgent._main_node`, lines 245-298) -/

mutual

/-- Python `str()` of a parsed JSON value, as interpolated by the f-string
building the step context (strings print bare, containers print with
Python `repr` of their elements). -/
def pyStr : Json → String
  | .null => "None"
  | .bool b => if b then "True" else "False"
  | .num n => toString n
  | .str s => s
  | .arr xs => "[" ++ ", ".intercalate (pyReprList xs) ++ "]"
  | .obj kvs => "\x7b" ++ ", ".intercalate (pyReprMembers kvs) ++ "\x7d"

def pyRepr : Json → String
  | .null => "None"
  | .bool b => if b then "True" else "False"
  | .num n => toString n
  | .str s => "'" ++ s ++ "'"
  | .arr xs => "[" ++ ", ".intercalate (pyReprList xs) ++ "]"
  | .obj kvs => "\x7b" ++ ", ".intercalate (pyReprMembers kvs) ++ "\x7d"

def pyReprList : List Json → List String
  | [] => []
  | x :: xs => pyRepr x :: pyReprList xs

def pyReprMembers : List (String × Json) → List String
  | [] => []
  | kv :: kvs => ("'" ++ kv.1 ++ "': " ++ pyRepr kv.2) :: pyReprMembers kvs

end

/-- The instruction context appended for the current step:
`"\n\n[Current task - Step {n}/{len}]: {description}"`. -/
def stepContext (plan : List PlanStep) (current_step : Nat) : String :=
  let st := (plan.get? current_step).getD { step_number := 0, description := .null, status := "" }
  "\n\n[Current task - Step " ++ toString st.step_number ++ "/" ++
    toString plan.length ++ "]: " ++ pyStr st.description

/-- The message list `_main_node` passes to `self.llm_with_tools.invoke`:
when a plan is active and in range, the LAST message — and only if it is a
`SystemMessage` or `HumanMessage` — is replaced by a copy with the step
context appended; in every other case the messages go through unmodified.
This modification is local to the invocation (the node returns only the
model response as its messages delta). -/
def mainInvokeMessages (messages : List Message) (plan : List PlanStep)
    (current_step : Nat) (plan_needed : Bool) : List Message :=
  if plan_needed ∧ ¬ plan.isEmpty ∧ current_step < plan.length then
    match messages.getLast? with
    | some (.system s) =>
        messages.dropLast ++ [.system (s ++ stepContext plan current_step)]
    | some (.human s) =>
        messages.dropLast ++ [.human (s ++ stepContext plan current_step)]
    | _ => messages
  else messages

/-- The plan/step update `_main_node` returns: when a plan is active, in
range, and the response carries no tool calls, the current step is marked
`"completed"` and the index advances; otherwise both are unchanged. -/
def mainUpdate (plan : List PlanStep) (current_step : Nat) (plan_needed : Bool)
    (tool_calls : List ToolCall) : List PlanStep × Nat :=
  if plan_needed ∧ ¬ plan.isEmpty ∧ current_step < plan.length then
    if tool_calls.isEmpty then
      match plan.get? current_step with
      | some st =>
          (plan.set current_step { st with status := "completed" }, current_step + 1)
      | none => (plan, current_step)
    else (plan, current_step)
  else (plan, current_step)

/-- Conditional edge `_should_continue` (identical in `langgraph_agent.py`
lines 88-105 and `plan_agent.py` lines 300-317): `"continue"` iff the last
message carries tool calls. -/
def shouldContinue (messages : List Message) : String :=
  match messages.getLast? with
  | some (.ai _ tcs) => if tcs.isEmpty then "end" else "continue"
  | _ => "end"

/-- Shared default system prompt of both agents. -/
def DEFAULT_SYSTEM_PROMPT : String :=
  "You are a helpful AI assistant with access to tools. " ++
  "When asked about the current time or weather, use the available tools to get accurate information. " ++
  "Always use tools when relevant to provide accurate and up-to-date information."

/-- Message preparation `_prepare_messages` (identical in both agents):
system prompt first (caller-supplied one if truthy), then either the
history minus its system messages, or just the user message when the
history is absent or empty. -/
def prepareMessages (user_message : String) (history_messages : Option (List Message))
    (system_prompt : Option String) : List Message :=
  let prompt :=
    match system_prompt with
    | some p => if p ≠ "" then p else DEFAULT_SYSTEM_PROMPT
    | none => DEFAULT_SYSTEM_PROMPT
  let base : List Message := [.system prompt]
  match history_messages with
  | some (h :: hs) =>
      base ++ ((h :: hs).filter (fun m => match m with | .system _ => false | _ => true))
  | _ => base ++ [.human user_message]

/-! ## Internal execution events and the SSE translator
(`LangGraphPlanAgent.astream_with_history`, lines 353-482)

`IEvent` models the `astream_events(version="v2")` events the translator
inspects: `on_chain_start`/`on_chain_end` for graph nodes (the end event
carrying the node's output dict), `on_chat_model_stream` token fragments,
and `on_tool_start`/`on_tool_end`.  `NodeData.dict` models
`event["data"]["output"]` being a dict, with each field `none` when the
corresponding key is absent (`output.get(key, default)` supplies the
default); `NodeData.nondict` models a non-dict output. -/

inductive NodeData where
  | dict : Option (List PlanStep) → Option Nat → Option Bool → NodeData
  | nondict : NodeData
  deriving Repr

inductive IEvent where
  | nodeStart : String → IEvent
  | nodeEnd : String → NodeData → IEvent
  | chatStream : String → IEvent
  | toolStart : String → Json → IEvent
  | toolEnd : String → String → IEvent
  deriving Repr

/-- The outward (SSE-level) events yielded by `astream_with_history`. -/
inductive OEvent where
  | node_start : String → OEvent
  | node_end : String → OEvent
  | plan_created : List PlanStep → OEvent
  | plan_step_completed : Nat → Json → OEvent
  | token : String → OEvent
  | tool_start : String → Json → OEvent
  | tool_end : String → String → OEvent
  deriving Repr

/-- Translator loop state: `current_node` (initially `None`), `last_plan`
(initially `[]`), and the `in_query_node` suppression flag (initially
`False`). -/
structure TransState where
  current_node : Option String
  last_plan : List PlanStep
  in_query : Bool
  deriving Repr

def initTransState : TransState :=
  { current_node := none, last_plan := [], in_query := false }

/-- The step-completion diff (lines 445-452): for every index of the new
plan also present in the old one, emit `(step_number, description)` when
the status transitioned to `"completed"`. -/
def stepDiffs (lastPlan newPlan : List PlanStep) : List (Nat × Json) :=
  (newPlan.zip lastPlan).filterMap
    (fun p =>
      if p.1.status = "completed" ∧ p.2.status ≠ "completed" then
        some (p.1.step_number, p.1.description)
      else none)

/-- One iteration of the `async for event ...` loop. -/
def transStep (s : TransState) (e : IEvent) : TransState × List OEvent :=
  match e with
  | .nodeStart n =>
      if (n = "QUERY" ∨ n = "MAIN" ∨ n = "TOOL") ∧ s.current_node ≠ some n then
        ({ current_node := some n, last_plan := s.last_plan, in_query := n = "QUERY" },
         [.node_start n])
      else (s, [])
  | .nodeEnd n d =>
      if (n = "QUERY" ∨ n = "MAIN" ∨ n = "TOOL") ∧ s.current_node = some n then
        if n = "QUERY" then
          match d with
          | .dict p _ pn =>
              let plan := p.getD []
              if pn.getD false ∧ ¬ plan.isEmpty then
                ({ s with in_query := false, last_plan := plan },
                 [.node_end n, .plan_created plan])
              else ({ s with in_query := false }, [.node_end n])
          | .nondict => ({ s with in_query := false }, [.node_end n])
        else if n = "MAIN" ∧ ¬ s.last_plan.isEmpty then
          match d with
          | .dict p _ _ =>
              let newPlan := p.getD []
              ({ s with last_plan := newPlan },
               .node_end n ::
                 (stepDiffs s.last_plan newPlan).map
                   (fun sd => .plan_step_completed sd.1 sd.2))
          | .nondict => (s, [.node_end n])
        else (s, [.node_end n])
      else (s, [])
  | .chatStream c =>
      if s.in_query then (s, [])
      else if c ≠ "" then (s, [.token c]) else (s, [])
  | .toolStart n inp => (s, [.tool_start n inp])
  | .toolEnd n out => (s, [.tool_end n out])

/-- Run the translator over a whole internal event stream, collecting the
outward events in production order. -/
def transRun (s : TransState) : List IEvent → TransState × List OEvent
  | [] => (s, [])
  | e :: es =>
      let p := transStep s e
      let q := transRun p.1 es
      (q.1, p.2 ++ q.2)

/-- The outward event stream for a run, from the initial translator state. -/
def translate (es : List IEvent) : List OEvent :=
  (transRun initTransState es).2

/-! ## The plan-agent run as a function of its oracle

The model and the tools are external collaborators; an `Oracle` supplies
the QUERY response (its streamed fragments and its final content) and the
successive MAIN responses (streamed fragments, content and requested tool
calls, each call paired with the external tool's result).  The graph is
`QUERY → MAIN` with `MAIN → TOOL → MAIN` while the response carries tool
calls (`_build_graph`, lines 80-117); the run ends when a MAIN response
carries none.  A run whose oracle list is exhausted while tool calls are
still pending simply has no further events (the real system would still be
awaiting the model). -/

structure MainResp where
  tokens : List String
  content : String
  tool_calls : List ToolCall
  deriving Repr

structure Oracle where
  queryContent : LCContent
  queryTokens : List String
  mainResponses : List MainResp
  deriving Repr

/-- Internal events of one TOOL phase: `ToolNode` runs each requested call,
emitting `on_tool_start`/`on_tool_end` per call inside the TOOL node's
chain start/end; its output dict carries only a `messages` key. -/
def toolPhaseEvents (tcs : List ToolCall) : List IEvent :=
  [.nodeStart "TOOL"] ++
    (tcs.flatMap (fun tc => [.toolStart tc.name tc.args, .toolEnd tc.name tc.result])) ++
    [.nodeEnd "TOOL" (.dict none none none)]

/-- The MAIN/TOOL loop: each MAIN visit streams the response fragments,
returns the updated plan/step in its output dict (`_main_node` returns
`messages`, `plan`, `current_step`; `plan_needed` stays fixed in the graph
state), then either finishes or executes the TOOL phase and repeats. -/
def runMainLoop (plan : List PlanStep) (current_step : Nat) (plan_needed : Bool)
    (msgs : List Message) : List MainResp → List IEvent
  | [] => []
  | r :: rest =>
      let resp : Message := .ai r.content r.tool_calls
      let upd := mainUpdate plan current_step plan_needed r.tool_calls
      let msgs1 := msgs ++ [resp]
      let iter : List IEvent :=
        [.nodeStart "MAIN"] ++ r.tokens.map IEvent.chatStream ++
          [.nodeEnd "MAIN" (.dict (some upd.1) (some upd.2) none)]
      if shouldContinue msgs1 = "continue" then
        iter ++ toolPhaseEvents r.tool_calls ++
          runMainLoop upd.1 upd.2 plan_needed
            (msgs1 ++ r.tool_calls.map (fun tc => Message.tool tc.result tc.id)) rest
      else iter

/-- A whole plan-agent run: the QUERY node (its token fragments are
internal events too — the classification model streams), then the
MAIN/TOOL loop.  The second component records whether the run raised (the
only uncaught exception in the modelled fragment is `_query_node`
iterating a non-iterable steps value); a raising run produces the events
up to the raise and no QUERY `on_chain_end`. -/
def runPlanAgent (o : Oracle) : List IEvent × Bool :=
  match queryNode o.queryContent with
  | .error _ =>
      ([.nodeStart "QUERY"] ++ o.queryTokens.map IEvent.chatStream, true)
  | .ok qr =>
      ([.nodeStart "QUERY"] ++ o.queryTokens.map IEvent.chatStream ++
         [.nodeEnd "QUERY" (.dict (some qr.plan) (some qr.current_step) (some qr.plan_needed))] ++
         runMainLoop qr.plan qr.current_step qr.plan_needed
           (prepareMessages "" none none) o.mainResponses,
       false)

/-! ## The basic ReAct agent (`langgraph_agent.py`)

`reactRun` is the `agent ⇄ tools` loop driven by the oracle's responses:
each reasoning step appends the model response; `_should_continue` sends
the run to the `tools` node iff the response carries tool calls, otherwise
the run ends.  The result is the final message sequence and the trace of
visited graph nodes. -/

def reactRun (msgs : List Message) : List MainResp → List Message × List String
  | [] => (msgs, [])
  | r :: rest =>
      let msgs1 := msgs ++ [Message.ai r.content r.tool_calls]
      if shouldContinue msgs1 = "continue" then
        let msgs2 := msgs1 ++ r.tool_calls.map (fun tc => Message.tool tc.result tc.id)
        let q := reactRun msgs2 rest
        (q.1, "agent" :: "tools" :: q.2)
      else (msgs1, ["agent"])

/-! ## The session store (`memory_store.py`)

Timestamps (`datetime.now()`) are the one omitted field: no claim touches
them.  The store is the dict from session id to session, as an association
list with Python dict semantics (lookup by first key occurrence, update in
place, insert at the end). -/

structure SessionMsg where
  role : String
  content : String
  deriving Repr, DecidableEq

structure Session where
  session_id : String
  messages : List SessionMsg
  deriving Repr, DecidableEq

/-- Embedding of `Session.add_message`: append one message. -/
def Session.addMessage (s : Session) (role content : String) : Session :=
  { s with messages := s.messages ++ [{ role := role, content := content }] }

/-- Embedding of `SessionMessage.to_langchain_message` (lines 24-38): `user` → human,
`assistant` → AI, `system` → system, anything else → human. -/
def toLangchainMessage (m : SessionMsg) : Message :=
  if m.role = "user" then .human m.content
  else if m.role = "assistant" then .ai m.content []
  else if m.role = "system" then .system m.content
  else .human m.content

abbrev Store := List (String × Session)

/-- Embedding of `InMemorySessionStore.get_session`. -/
def storeGetSession (store : Store) (sid : String) : Option Session :=
  (List.find? (fun p => p.1 = sid) store).map (fun p => p.2)

/-- Embedding of `InMemorySessionStore.add_message`: get-or-create the session, then
append (creation inserts an empty session that immediately receives the
message). -/
def storeAddMessage (store : Store) (sid role content : String) : Store :=
  match storeGetSession store sid with
  | some _ =>
      store.map (fun p => if p.1 = sid then (p.1, p.2.addMessage role content) else p)
  | none =>
      store ++ [(sid, Session.addMessage { session_id := sid, messages := [] } role content)]

/-- Embedding of `InMemorySessionStore.get_messages`: the session's messages, or `[]`
for an unknown session. -/
def storeHistory (store : Store) (sid : String) : List SessionMsg :=
  match storeGetSession store sid with
  | some s => s.messages
  | none => []

/-! ## The service streaming loops (`service.py`)

Each loop iteration first awaits `request.is_disconnected()`; the client
disconnect is modelled by the number `d` of checks that return `False`
before the signal turns (and stays) true.  `SSEOut` models the typed SSE
frames, abstracting the `event:`/`data:` wire encoding. -/

inductive SSEOut where
  | start : String → SSEOut
  | token : String → SSEOut
  | nodeStart : String → SSEOut
  | nodeEnd : String → SSEOut
  | toolStart : String → Json → SSEOut
  | toolEnd : String → String → SSEOut
  | endEv : String → SSEOut
  | errorEv : String → SSEOut
  deriving Repr

/-- Final persistence step shared by both streaming handlers: `if
accumulated_response: self.session_store.add_message(session_id,
'assistant', accumulated_response)`. -/
def persistAssistant (store : Store) (sid acc : String) : Store :=
  if acc ≠ "" then storeAddMessage store sid "assistant" acc else store

/-- The `for chunk in stream` loop of `_stream_basic_response` (lines
154-165): break as soon as a disconnect check fires, otherwise forward and
accumulate every chunk with non-empty content. -/
def streamBasicLoop (chunks : List String) (d : Nat) (acc : String) :
    List SSEOut × String :=
  match chunks, d with
  | [], _ => ([], acc)
  | _ :: _, 0 => ([], acc)
  | c :: rest, d + 1 =>
      let p := streamBasicLoop rest d (if c ≠ "" then acc ++ c else acc)
      ((if c ≠ "" then [SSEOut.token c] else []) ++ p.1, p.2)

/-- Embedding of `_stream_basic_response` (lines 122-179): `start` event, the chunk
loop, persistence of any accumulated text, and the `end` event only if the
final disconnect check still reports a connected client. -/
def streamBasic (store : Store) (sid : String) (chunks : List String) (d : Nat) :
    List SSEOut × Store :=
  let p := streamBasicLoop chunks d ""
  ([SSEOut.start sid] ++ p.1 ++ (if chunks.length < d then [SSEOut.endEv sid] else []),
   persistAssistant store sid p.2)

/-- One iteration of the `async for event in agent.astream_with_history`
loop of `_stream_langgraph_response` (lines 226-265): tokens with content
are forwarded and accumulated, node and tool events are forwarded, any
other event type is dropped. -/
def lgStep (e : OEvent) (acc : String) : List SSEOut × String :=
  match e with
  | .token c => if c ≠ "" then ([.token c], acc ++ c) else ([], acc)
  | .node_start n => ([.nodeStart n], acc)
  | .node_end n => ([.nodeEnd n], acc)
  | .tool_start t i => ([.toolStart t i], acc)
  | .tool_end t o => ([.toolEnd t o], acc)
  | _ => ([], acc)

def streamLGLoop (evs : List OEvent) (d : Nat) (acc : String) :
    List SSEOut × String :=
  match evs, d with
  | [], _ => ([], acc)
  | _ :: _, 0 => ([], acc)
  | e :: rest, d + 1 =>
      let p := lgStep e acc
      let q := streamLGLoop rest d p.2
      (p.1 ++ q.1, q.2)

/-- Embedding of `_stream_langgraph_response` (lines 194-280): same shape as the basic
handler, over the agent's typed events. -/
def streamLG (store : Store) (sid : String) (evs : List OEvent) (d : Nat) :
    List SSEOut × Store :=
  let p := streamLGLoop evs d ""
  ([SSEOut.start sid] ++ p.1 ++ (if evs.length < d then [SSEOut.endEv sid] else []),
   persistAssistant store sid p.2)

/-! ## The model client pool (`llm_client.py`) and resolution
(`ChatService._get_client`, `service.py` lines 20-55) -/

structure Profile where
  name : String
  provider : String
  model : String
  base_url : String
  api_key : String
  default : Bool
  deriving Repr, DecidableEq

/-- Pool state after `_load_from_settings`: the name-keyed dict of
initialized clients (in insertion order) and the designated default. -/
structure PoolState where
  profiles : List (String × Profile)
  default_client : Option Profile
  deriving Repr, DecidableEq

/-- Embedding of `LLMList.get_client`: dict lookup for a truthy profile name, otherwise
the default client. -/
def llmGetClient (ps : PoolState) (profile_name : Option String) : Option Profile :=
  match profile_name with
  | some n =>
      if n ≠ "" then (List.find? (fun p => p.1 = n) ps.profiles).map (fun p => p.2)
      else ps.default_client
  | none => ps.default_client

/-- Embedding of `LLMList.get_client_by_provider_and_model`: first client (in dict
order) with matching provider and model. -/
def llmGetClientByProviderAndModel (ps : PoolState) (provider model : String) :
    Option Profile :=
  (List.find? (fun p => p.2.provider = provider ∧ p.2.model = model) ps.profiles).map
    (fun p => p.2)

/-- Embedding of `ChatService._get_client`: by profile name, then — if a truthy provider
hint was given — by (provider, model), then by model name over all
profiles, then the default client. -/
def serviceGetClient (ps : PoolState) (model : String) (provider : Option String) :
    Option Profile :=
  let c1 := llmGetClient ps (some model)
  let c2 :=
    match c1, provider with
    | none, some p => if p ≠ "" then llmGetClientByProviderAndModel ps p model else none
    | c, _ => c
  let c3 :=
    match c2 with
    | none => (List.find? (fun p => p.2.model = model) ps.profiles).map (fun p => p.2)
    | c => c
  match c3 with
  | none => ps.default_client
  | c => c

/-- Resolution as the specification words it (section 4.1): (1) exact match
against profile name, (2) with a provider hint, match by (provider, model),
(3) scan all profiles for a matching model identifier, (4) the configured
default profile — each step only if the previous failed.  This definition
follows the spec text and is compared with `serviceGetClient`, the
embedding of the source. -/
def specResolve (ps : PoolState) (selector : String) (hint : Option String) :
    Option Profile :=
  match (List.find? (fun p => p.1 = selector) ps.profiles).map (fun p => p.2) with
  | some c => some c
  | none =>
      match hint.bind (fun h =>
          (List.find? (fun p => p.2.provider = h ∧ p.2.model = selector) ps.profiles).map
            (fun p => p.2)) with
      | some c => some c
      | none =>
          match (List.find? (fun p => p.2.model = selector) ps.profiles).map (fun p => p.2) with
          | some c => some c
          | none => ps.default_client

/-! ## Loading profiles from configuration
(`LLMList._resolve_env_var` and `_load_from_settings`, lines 112-209) -/

/-- Configuration entry for one profile as read from `settings.yaml`
(`profile_config.get(...)`; absent name/provider/model read as `None`,
absent url/key as `''`). -/
structure ProfileConfig where
  name : Option String
  provider : Option String
  model : Option String
  base_url : String
  api_key : String
  default : Bool
  deriving Repr

/-- Scan for the first `}` and split (the regex inner group `[^}]+` is the
run of characters before it). -/
def spanToBrace : List Char → Option (List Char × List Char)
  | [] => none
  | '\x7d' :: rest => some ([], rest)
  | c :: rest => (spanToBrace rest).map (fun p => (c :: p.1, p.2))

/-- First match of the regex `\$\x7b([^\x7d]+)\x7d`: returns (text before
the match, the inner group, text after). -/
def scanVarRef : List Char → Option (List Char × List Char × List Char)
  | [] => none
  | '$' :: '\x7b' :: rest =>
      (match spanToBrace rest with
       | some (inner, after) =>
           if inner ≠ [] then some ([], inner, after)
           else (scanVarRef ('\x7b' :: rest)).map (fun p => ('$' :: p.1, p.2.1, p.2.2))
       | none =>
           (scanVarRef ('\x7b' :: rest)).map (fun p => ('$' :: p.1, p.2.1, p.2.2)))
  | c :: rest => (scanVarRef rest).map (fun p => (c :: p.1, p.2.1, p.2.2))

/-- Split a variable expression at the first `:-` (the
`${VAR:-default}` syntax). -/
def splitColonDash : List Char → Option (List Char × List Char)
  | [] => none
  | ':' :: '-' :: rest => some ([], rest)
  | c :: rest => (splitColonDash rest).map (fun p => (c :: p.1, p.2))

/-- Embedding of `LLMList._resolve_env_var`: empty values stay empty; with no `${...}`
reference the value passes through; otherwise the first reference is
resolved from the environment (with the `:-` default, both sides
stripped), a truthy result is substituted in place, and a falsy result
makes the whole value `''` (which later fails validation). -/
def resolveEnvVar (env : String → Option String) (value : String) : String :=
  if value = "" then ""
  else
    match scanVarRef value.toList with
    | none => value
    | some (before, inner, after) =>
        let expr := String.mk inner
        let envValue :=
          match splitColonDash expr.toList with
          | some (vn, dv) =>
              match env (String.mk vn).trim with
              | some v => v
              | none => (String.mk dv).trim
          | none => (env expr.trim).getD ""
        if envValue ≠ "" then String.mk before ++ envValue ++ String.mk after
        else ""

/-- Client construction (`LLMClient.__init__`): succeeds for the two
supported providers, raises `ValueError` otherwise (the loader catches the
raise and skips the profile). -/
def initClient (name provider model base_url api_key : String) (default : Bool) :
    Option Profile :=
  if provider = "openai" ∨ provider = "azureopenai" then
    some { name := name, provider := provider, model := model,
           base_url := base_url, api_key := api_key, default := default }
  else none

/-- One configuration entry through validation and construction: `none`
when a required field is falsy after environment resolution or when the
client constructor raises. -/
def attemptInit (env : String → Option String) (c : ProfileConfig) : Option Profile :=
  let name := c.name.getD ""
  let provider := c.provider.getD ""
  let model := c.model.getD ""
  let base_url := resolveEnvVar env c.base_url
  let api_key := resolveEnvVar env c.api_key
  if name ≠ "" ∧ provider ≠ "" ∧ model ≠ "" ∧ base_url ≠ "" ∧ api_key ≠ "" then
    initClient name provider model base_url api_key c.default
  else none

/-- Python dict assignment for the profile map (`self.profiles[name] =
client`). -/
def poolDictInsert (ps : List (String × Profile)) (k : String) (v : Profile) :
    List (String × Profile) :=
  if ps.any (fun p => p.1 = k) then
    ps.map (fun p => if p.1 = k then (k, v) else p)
  else ps ++ [(k, v)]

/-- The loader's main loop over the configured profiles, threading the
profile map, the default client and the `default_found` flag. -/
def loadAux (env : String → Option String) :
    List ProfileConfig → List (String × Profile) → Option Profile → Bool →
      List (String × Profile) × Option Profile × Bool
  | [], ps, dc, df => (ps, dc, df)
  | c :: rest, ps, dc, df =>
      match attemptInit env c with
      | none => loadAux env rest ps dc df
      | some client =>
          let ps1 := poolDictInsert ps client.name client
          if client.default ∧ ¬ df then loadAux env rest ps1 (some client) true
          else loadAux env rest ps1 dc df

/-- Embedding of `LLMList._load_from_settings`: run the loop, then — when no profile was
marked default — fall back to the first entry of the profile map. -/
def loadFromSettings (env : String → Option String) (cfg : List ProfileConfig) :
    PoolState :=
  match loadAux env cfg [] none false with
  | (ps, dc, df) =>
      if df then { profiles := ps, default_client := dc }
      else
        match ps with
        | [] => { profiles := ps, default_client := dc }
        | p :: _ => { profiles := ps, default_client := some p.2 }

/-- The successfully initialized profiles in configuration order (the
spec-side notion used to phrase the default-selection claim). -/
def initializedProfiles (env : String → Option String) (cfg : List ProfileConfig) :
    List Profile :=
  cfg.filterMap (attemptInit env)

/-- The profile map built by inserting each initialized profile in order
(the loader's cumulative effect on `self.profiles`). -/
def insertAllProfiles (ps : List (String × Profile)) (l : List Profile) :
    List (String × Profile) :=
  l.foldl (fun a c => poolDictInsert a c.name c) ps

/-- An environment with no variables set (used by concrete scenarios;
values without `${...}` references resolve to themselves under it). -/
def envEmpty : String → Option String := fun _ => none

/-- A configured profile whose placeholders cannot be resolved. -/
def cfgUnresolved : List ProfileConfig :=
  [{ name := some "a", provider := some "openai", model := some "m",
     base_url := "$\x7bAISTUDIO_URL\x7d", api_key := "$\x7bAISTUDIO_KEY\x7d",
     default := false }]

/-- Two configured profiles sharing one name, neither marked default. -/
def cfgDup : List ProfileConfig :=
  [{ name := some "x", provider := some "openai", model := some "m1",
     base_url := "u", api_key := "k", default := false },
   { name := some "x", provider := some "openai", model := some "m2",
     base_url := "u", api_key := "k", default := false }]

/-- Two well-formed profiles with distinct names, the second marked
default. -/
def cfgGood : List ProfileConfig :=
  [{ name := some "a", provider := some "openai", model := some "m1",
     base_url := "u", api_key := "k", default := false },
   { name := some "b", provider := some "azureopenai", model := some "m2",
     base_url := "u", api_key := "k", default := true }]

/-- A concrete two-profile pool used to exercise resolution. -/
def poolW : PoolState :=
  { profiles :=
      [("gpt4", { name := "gpt4", provider := "openai", model := "gpt-4o",
                  base_url := "https://api.example", api_key := "k1", default := true }),
       ("azure-gpt", { name := "azure-gpt", provider := "azureopenai", model := "gpt-4o-mini",
                       base_url := "https://az.example", api_key := "k2", default := false })],
    default_client :=
      some { name := "gpt4", provider := "openai", model := "gpt-4o",
             base_url := "https://api.example", api_key := "k1", default := true } }

/-- Step numbers of the `plan_step_completed` events of an outward stream,
in emission order. -/
def completedNums (out : List OEvent) : List Nat :=
  out.filterMap (fun e => match e with | .plan_step_completed n _ => some n | _ => none)

/-- Whether an outward stream contains a `plan_created` event. -/
def hasPlanCreated (out : List OEvent) : Bool :=
  out.any (fun e => match e with | .plan_created _ => true | _ => false)

/-- The token content a langgraph-handler iteration accumulates (empty for
every non-token event and for empty token content). -/
def tokenContent : OEvent → Option String
  | .token c => if c ≠ "" then some c else none
  | _ => none

/-- A run's effect on the store: the service layer only ever calls
`add_message` during a run (`service.py` lines 112, 169, 178, 269, 278),
so a completed run is a sequence of appends. -/
def applyRunOps (store : Store) (ops : List (String × String × String)) : Store :=
  ops.foldl (fun st op => storeAddMessage st op.1 op.2.1 op.2.2) store

/-! ## Shared lemmas -/

theorem strFoldlAppend (l : List String) (a : String) :
    l.foldl (fun r s => r ++ s) a = a ++ l.foldl (fun r s => r ++ s) "" := by
  induction l generalizing a with
  | nil => simp
  | cons h t ih =>
      simp only [List.foldl_cons]
      rw [ih (a ++ h), ih ("" ++ h)]
      simp [String.append_assoc]

theorem strJoinCons (c : String) (l : List String) :
    String.join (c :: l) = c ++ String.join l := by
  simp only [String.join, List.foldl_cons]
  rw [strFoldlAppend]
  simp

theorem getLastConcat (l : List Message) (m : Message) :
    (l ++ [m]).getLast? = some m := by simp

theorem shouldContinueConcat (msgs : List Message) (c : String) (tcs : List ToolCall) :
    shouldContinue (msgs ++ [Message.ai c tcs]) =
      if tcs.isEmpty then "end" else "continue" := by
  unfold shouldContinue
  rw [getLastConcat]

/-! ## Claim C9: role mapping of stored messages -/

/-- C9 (confirmed): `SessionMessage.to_langchain_message` maps role
`user` to a human message, `assistant` to an AI message, `system` to a
system message, and any other role value to a human message — unknown
roles are neither rejected nor dropped. -/
theorem claim9_role_mapping (role content : String) :
    (role = "user" → toLangchainMessage ⟨role, content⟩ = .human content)
    ∧ (role = "assistant" → toLangchainMessage ⟨role, content⟩ = .ai content [])
    ∧ (role = "system" → toLangchainMessage ⟨role, content⟩ = .system content)
    ∧ (role ≠ "user" → role ≠ "assistant" → role ≠ "system" →
        toLangchainMessage ⟨role, content⟩ = .human content) := by
  refine ⟨?_, ?_, ?_, ?_⟩
  · intro h; subst h; rfl
  · intro h; subst h; rfl
  · intro h; subst h; rfl
  · intro h1 h2 h3; simp [toLangchainMessage, h1, h2, h3]

/-- Witness for C9 at concrete inputs: the fallback branch maps the
unknown role `tool` to a human message. -/
theorem claim9_witness :
    toLangchainMessage ⟨"tool", "output text"⟩ = .human "output text" :=
  (claim9_role_mapping "tool" "output text").2.2.2 (by decide) (by decide) (by decide)

/-! ## Claim C8: session history is append-only -/

theorem storeGetSessionMapUpdate (store : Store) (k : String) (g : Session → Session)
    (sid : String) :
    storeGetSession (store.map (fun p => if p.1 = k then (p.1, g p.2) else p)) sid
      = if sid = k then (storeGetSession store sid).map g
        else storeGetSession store sid := by
  induction store with
  | nil => simp [storeGetSession]
  | cons hd tl ih =>
      by_cases hs : hd.1 = sid
      · by_cases hk : hd.1 = k
        · have hsk : sid = k := by rw [← hs, hk]
          simp [storeGetSession, List.find?_cons, hk, hs, hsk]
        · have hsk : ¬ sid = k := fun hh => hk (hs.trans hh)
          simp [storeGetSession, List.find?_cons, hk, hs, hsk]
      · by_cases hk : hd.1 = k
        · have hks : ¬ k = sid := fun hh => hs (by rw [hk, hh])
          simpa [storeGetSession, List.find?_cons, hk, hs, hks] using ih
        · simpa [storeGetSession, List.find?_cons, hk, hs] using ih

theorem storeGetSessionAppendSingle (store : Store) (sid : String)
    (e : String × Session) :
    storeGetSession (store ++ [e]) sid
      = (storeGetSession store sid).or
          (if e.1 = sid then some e.2 else none) := by
  unfold storeGetSession
  rw [List.find?_append]
  cases h : List.find? (fun p => p.1 = sid) store with
  | some p => simp [Option.or]
  | none =>
      by_cases he : e.1 = sid <;> simp [List.find?_cons, he, Option.or]

/-- Effect of one `add_message` on any session's history: the target
session gains exactly the appended message at the end, other sessions are
untouched. -/
theorem storeHistoryAddMessage (store : Store) (tsid sid role content : String) :
    storeHistory (storeAddMessage store tsid role content) sid
      = storeHistory store sid ++
          (if tsid = sid then [⟨role, content⟩] else []) := by
  cases h : storeGetSession store tsid with
  | some s =>
      have hadd : storeAddMessage store tsid role content
          = store.map (fun p => if p.1 = tsid then (p.1, p.2.addMessage role content) else p) := by
        unfold storeAddMessage
        rw [h]
      rw [hadd]
      unfold storeHistory
      rw [storeGetSessionMapUpdate store tsid (fun s => s.addMessage role content) sid]
      by_cases hts : tsid = sid
      · subst hts
        rw [h]
        simp [Session.addMessage]
      · have hts2 : ¬ sid = tsid := fun hh => hts hh.symm
        simp [hts, hts2]
  | none =>
      have hadd : storeAddMessage store tsid role content
          = store ++ [(tsid, Session.addMessage ⟨tsid, []⟩ role content)] := by
        unfold storeAddMessage
        rw [h]
      rw [hadd]
      unfold storeHistory
      rw [storeGetSessionAppendSingle]
      by_cases hts : tsid = sid
      · subst hts
        rw [h]
        simp [Session.addMessage, Option.or]
      · rw [if_neg hts]
        simp [hts]

/-- C8 (confirmed): each append extends the retrievable history by exactly
that message at the end (so histories are retrievable in append order and
grow by exactly one per append), and any sequence of the append operations
a run performs never shortens any session's history. -/
theorem claim8_history_append (store : Store) (sid role content : String)
    (ops : List (String × String × String)) :
    storeHistory (storeAddMessage store sid role content) sid
      = storeHistory store sid ++ [⟨role, content⟩]
    ∧ (storeHistory (storeAddMessage store sid role content) sid).length
      = (storeHistory store sid).length + 1
    ∧ (storeHistory store sid).length ≤ (storeHistory (applyRunOps store ops) sid).length := by
  refine ⟨?_, ?_, ?_⟩
  · rw [storeHistoryAddMessage]; simp
  · rw [storeHistoryAddMessage]; simp
  · induction ops generalizing store with
    | nil => simp [applyRunOps]
    | cons op rest ih =>
        have step : (storeHistory store sid).length
            ≤ (storeHistory (storeAddMessage store op.1 op.2.1 op.2.2) sid).length := by
          rw [storeHistoryAddMessage]
          simp
        calc (storeHistory store sid).length
            ≤ (storeHistory (storeAddMessage store op.1 op.2.1 op.2.2) sid).length := step
          _ ≤ (storeHistory (applyRunOps (storeAddMessage store op.1 op.2.1 op.2.2) rest) sid).length :=
              ih (storeAddMessage store op.1 op.2.1 op.2.2)
          _ = (storeHistory (applyRunOps store (op :: rest)) sid).length := by
              simp [applyRunOps]

/-! ## Claim C6: a tool-free reasoning step ends the basic agent run -/

/-- C6 (confirmed): whenever a reasoning step of the basic agent produces a
response with zero tool invocations, the run appends exactly that response
as the single terminal assistant message and ends having visited only the
`agent` node — the `tools` node is never entered. -/
theorem claim6_no_tools_ends (msgs : List Message) (r : MainResp) (rest : List MainResp)
    (h : r.tool_calls = []) :
    reactRun msgs (r :: rest) = (msgs ++ [Message.ai r.content r.tool_calls], ["agent"])
    ∧ "tools" ∉ (reactRun msgs (r :: rest)).2 := by
  have hsc : shouldContinue (msgs ++ [Message.ai r.content r.tool_calls]) = "end" := by
    rw [shouldContinueConcat, h]
    rfl
  have heq : reactRun msgs (r :: rest)
      = (msgs ++ [Message.ai r.content r.tool_calls], ["agent"]) := by
    simp [reactRun, hsc]
  exact ⟨heq, by rw [heq]; simp⟩

/-! ## Translator run lemmas (shared by the plan-agent claims) -/

theorem completedNumsAppend (a b : List OEvent) :
    completedNums (a ++ b) = completedNums a ++ completedNums b := by
  simp [completedNums]

theorem hasPlanCreatedAppend (a b : List OEvent) :
    hasPlanCreated (a ++ b) = (hasPlanCreated a || hasPlanCreated b) := by
  simp [hasPlanCreated]

theorem transRunAppend (xs ys : List IEvent) (s : TransState) :
    transRun s (xs ++ ys)
      = ((transRun (transRun s xs).1 ys).1,
         (transRun s xs).2 ++ (transRun (transRun s xs).1 ys).2) := by
  induction xs generalizing s with
  | nil => simp [transRun]
  | cons e es ih =>
      simp [transRun, ih, List.append_assoc]

theorem transStepChatStreamState (s : TransState) (c : String) :
    (transStep s (.chatStream c)).1 = s := by
  dsimp only [transStep]
  split_ifs <;> rfl

theorem transStepChatStreamQuery (s : TransState) (c : String) (h : s.in_query = true) :
    transStep s (.chatStream c) = (s, []) := by
  simp [transStep, h]

/-- Token fragments arriving while the suppression flag is up leave both
the translator state and the outward stream untouched. -/
theorem transRunChatStreamsQuery (ts : List String) (s : TransState)
    (h : s.in_query = true) :
    transRun s (ts.map IEvent.chatStream) = (s, []) := by
  induction ts with
  | nil => simp [transRun]
  | cons t ts ih =>
      simp [transRun, transStepChatStreamQuery s t h, ih]

/-! ## Claim C2: MAIN-step instruction context -/

/-- C2 (corrected): when a plan is active and the step index is in range,
the MAIN node appends the current step's description as instruction
context to the LAST message of the run's message sequence — and only when
that last message is a system or user message; any other last message
(an AI or tool-result message, the usual case after a TOOL round) leaves
the sequence unmodified, so the most recent system-or-user message earlier
in the list is NOT amended.  With no active plan or an out-of-range index
the sequence is always unmodified. -/
theorem claim2_step_context_corrected :
    (∀ (msgs : List Message) (plan : List PlanStep) (cs : Nat), cs < plan.length →
      mainInvokeMessages msgs plan cs true
        = match msgs.getLast? with
          | some (.system s) => msgs.dropLast ++ [.system (s ++ stepContext plan cs)]
          | some (.human s) => msgs.dropLast ++ [.human (s ++ stepContext plan cs)]
          | _ => msgs)
    ∧ (∀ (msgs : List Message) (plan : List PlanStep) (cs : Nat),
        mainInvokeMessages msgs plan cs false = msgs)
    ∧ (∀ (msgs : List Message) (plan : List PlanStep) (cs : Nat), plan.length ≤ cs →
        mainInvokeMessages msgs plan cs true = msgs) := by
  refine ⟨?_, ?_, ?_⟩
  · intro msgs plan cs h
    have hne : plan.isEmpty = false := by
      cases plan with
      | nil => simp at h
      | cons a l => rfl
    simp [mainInvokeMessages, hne, h]
  · intro msgs plan cs
    simp [mainInvokeMessages]
  · intro msgs plan cs h
    have hh := Nat.not_lt.mpr h
    simp [mainInvokeMessages, hh]

/-- Counterexample to C2 as stated: the plan is active with step 1
("Find sources") in range, the most recent system-or-user message is
`human "question"`, yet the message sequence passed to the model is
returned completely unchanged — no message receives the step description —
because the LAST message is a tool-result message. -/
theorem claim2_counterexample :
    mainInvokeMessages
        [.system "sp", .human "question",
         .ai "" [⟨"get_current_time", .null, "1", "3pm"⟩], .tool "3pm" "1"]
        [⟨1, .str "Find sources", "pending"⟩] 0 true
      = [.system "sp", .human "question",
         .ai "" [⟨"get_current_time", .null, "1", "3pm"⟩], .tool "3pm" "1"] := rfl

/-- Witness for C2 (amended): with a user message last, the step context is
appended to it. -/
theorem claim2_witness :
    mainInvokeMessages [.system "sp", .human "hi"]
        [⟨1, .str "Find sources", "pending"⟩] 0 true
      = [.system "sp",
         .human ("hi" ++ stepContext [⟨1, .str "Find sources", "pending"⟩] 0)] := by
  have h := claim2_step_context_corrected.1 [.system "sp", .human "hi"]
    [⟨1, .str "Find sources", "pending"⟩] 0 (by decide)
  simpa using h

/-! ## Claim C7: client disconnect stops production but persists text -/

theorem lgStepSplit (e : OEvent) (acc : String) :
    lgStep e acc = ((lgStep e "").1, acc ++ ((tokenContent e).getD "")) := by
  cases e with
  | token c =>
      by_cases hc : c = "" <;> simp [lgStep, tokenContent, hc]
  | node_start n => simp [lgStep, tokenContent]
  | node_end n => simp [lgStep, tokenContent]
  | plan_created p => simp [lgStep, tokenContent]
  | plan_step_completed n d => simp [lgStep, tokenContent]
  | tool_start t i => simp [lgStep, tokenContent]
  | tool_end t o => simp [lgStep, tokenContent]

theorem streamBasicLoopSpec (chunks : List String) (d : Nat) (acc : String) :
    streamBasicLoop chunks d acc
      = (((chunks.take d).filter (fun c => c ≠ "")).map SSEOut.token,
         acc ++ String.join (chunks.take d)) := by
  induction chunks generalizing d acc with
  | nil => simp [streamBasicLoop, String.join]
  | cons c rest ih =>
      cases d with
      | zero => simp [streamBasicLoop, String.join]
      | succ d =>
          by_cases hc : c = ""
          · subst hc
            simp [streamBasicLoop, ih, strJoinCons]
          · simp [streamBasicLoop, ih, hc, strJoinCons, String.append_assoc]

theorem streamLGLoopSpec (evs : List OEvent) (d : Nat) (acc : String) :
    streamLGLoop evs d acc
      = ((evs.take d).flatMap (fun e => (lgStep e "").1),
         acc ++ String.join ((evs.take d).filterMap tokenContent)) := by
  induction evs generalizing d acc with
  | nil => simp [streamLGLoop, String.join]
  | cons e rest ih =>
      cases d with
      | zero => simp [streamLGLoop, String.join]
      | succ d =>
          rw [streamLGLoop]
          rw [lgStepSplit]
          rw [ih]
          cases hc : tokenContent e with
          | some c =>
              simp [List.filterMap_cons, hc, strJoinCons, String.append_assoc]
          | none =>
              simp [List.filterMap_cons, hc]

/-- C7 (confirmed for the modelled disconnect semantics): when the client
disconnects mid-stream — the `request.is_disconnected()` check turns true
from the `d`-th check on, with `d` strictly below the number of pending
chunks/events — both streaming handlers stop at the next check, deliver
exactly the `start` event plus the output of the first `d` iterations (in
particular no `end` event and nothing beyond the disconnect), and still
commit the accumulated assistant text (when non-empty) to the session
history before terminating. -/
theorem claim7_disconnect_persists (store : Store) (sid : String)
    (chunks : List String) (evs : List OEvent) (d1 d2 : Nat)
    (h1 : d1 < chunks.length) (h2 : d2 < evs.length) :
    streamBasic store sid chunks d1
      = ([SSEOut.start sid] ++ ((chunks.take d1).filter (fun c => c ≠ "")).map SSEOut.token,
         persistAssistant store sid (String.join (chunks.take d1)))
    ∧ streamLG store sid evs d2
      = ([SSEOut.start sid] ++ (evs.take d2).flatMap (fun e => (lgStep e "").1),
         persistAssistant store sid (String.join ((evs.take d2).filterMap tokenContent))) := by
  constructor
  · unfold streamBasic
    rw [streamBasicLoopSpec]
    have hno : ¬ chunks.length < d1 := by omega
    simp [hno]
  · unfold streamLG
    rw [streamLGLoopSpec]
    have hno : ¬ evs.length < d2 := by omega
    simp [hno]

/-- Witness for C7: disconnect after two checks in the basic handler (two
tokens delivered, no `end`, partial text persisted) and after one check in
the langgraph handler. -/
theorem claim7_witness :
    streamBasic [] "s" ["ab", "", "cd"] 2
      = ([SSEOut.start "s"] ++ (((["ab", "", "cd"].take 2).filter (fun c => c ≠ "")).map SSEOut.token),
         persistAssistant [] "s" (String.join (["ab", "", "cd"].take 2)))
    ∧ streamLG [] "s" [OEvent.node_start "MAIN", OEvent.token "hey"] 1
      = ([SSEOut.start "s"] ++ ([OEvent.node_start "MAIN", OEvent.token "hey"].take 1).flatMap
            (fun e => (lgStep e "").1),
         persistAssistant [] "s"
           (String.join (([OEvent.node_start "MAIN", OEvent.token "hey"].take 1).filterMap tokenContent))) :=
  claim7_disconnect_persists [] "s" ["ab", "", "cd"]
    [OEvent.node_start "MAIN", OEvent.token "hey"] 2 1 (by decide) (by decide)

/-! ## Claim C3: QUERY-phase token suppression -/

theorem transRunStartQuery :
    transRun initTransState [IEvent.nodeStart "QUERY"]
      = ({ current_node := some "QUERY", last_plan := [], in_query := true },
         [OEvent.node_start "QUERY"]) := by
  simp [transRun, transStep, initTransState]

/-- C3 (confirmed): the outward stream of a plan-agent run does not depend
on the token fragments produced while the graph is in the QUERY state —
replacing them all by none leaves the translated stream unchanged.  Hence
no token event (indeed no event at all) is ever emitted for a QUERY-phase
token fragment: suppression covers 100% of them. -/
theorem claim3_query_tokens_suppressed (o : Oracle) :
    translate (runPlanAgent o).1
      = translate (runPlanAgent { o with queryTokens := [] }).1 := by
  unfold translate runPlanAgent
  cases h : queryNode o.queryContent with
  | error e =>
      simp only [h, List.append_assoc]
      rw [transRunAppend, transRunStartQuery, transRunChatStreamsQuery _ _ rfl]
      simp [transRun]
      rfl
  | ok qr =>
      simp only [h, List.append_assoc]
      rw [transRunAppend, transRunStartQuery, transRunAppend,
        transRunChatStreamsQuery _ _ rfl]
      simp [transRun]
      rfl

/-! ## Claim C4: step-completion events are unique and ordered -/

theorem transRunSingle (s : TransState) (e : IEvent) :
    transRun s [e] = ((transStep s e).1, (transStep s e).2) := by
  simp [transRun]

theorem transStepStartMain (s : TransState) (h : s.current_node ≠ some "MAIN") :
    transStep s (.nodeStart "MAIN")
      = ({ current_node := some "MAIN", last_plan := s.last_plan, in_query := false },
         [.node_start "MAIN"]) := by
  simp [transStep, h]

theorem transStepStartTool (s : TransState) (h : s.current_node = some "MAIN") :
    transStep s (.nodeStart "TOOL")
      = ({ current_node := some "TOOL", last_plan := s.last_plan, in_query := false },
         [.node_start "TOOL"]) := by
  simp [transStep, h]

theorem transStepEndTool (s : TransState) (h : s.current_node = some "TOOL") :
    transStep s (.nodeEnd "TOOL" (.dict none none none)) = (s, [.node_end "TOOL"]) := by
  simp [transStep, h]

theorem transStepEndMain (s : TransState) (p : List PlanStep) (cs : Nat)
    (h : s.current_node = some "MAIN") (hlp : ¬ s.last_plan.isEmpty) :
    transStep s (.nodeEnd "MAIN" (.dict (some p) (some cs) none))
      = ({ s with last_plan := p },
         .node_end "MAIN" ::
           (stepDiffs s.last_plan p).map (fun sd => .plan_step_completed sd.1 sd.2)) := by
  simp [transStep, h, hlp]

theorem transStepEndMainEmpty (s : TransState) (p : List PlanStep) (cs : Nat)
    (h : s.current_node = some "MAIN") (hlp : s.last_plan.isEmpty) :
    transStep s (.nodeEnd "MAIN" (.dict (some p) (some cs) none))
      = (s, [.node_end "MAIN"]) := by
  simp [transStep, h, hlp]

theorem transRunChatStreamsState (ts : List String) (s : TransState) :
    (transRun s (ts.map IEvent.chatStream)).1 = s := by
  induction ts with
  | nil => simp [transRun]
  | cons t ts ih => simp [transRun, transStepChatStreamState, ih]

theorem completedNumsChatStep (s : TransState) (c : String) :
    completedNums (transStep s (.chatStream c)).2 = [] := by
  dsimp only [transStep]
  split_ifs <;> simp [completedNums]

theorem completedNumsChatStreams (ts : List String) (s : TransState) :
    completedNums (transRun s (ts.map IEvent.chatStream)).2 = [] := by
  induction ts generalizing s with
  | nil => simp [transRun, completedNums]
  | cons t ts ih =>
      simp [transRun, completedNumsAppend, completedNumsChatStep, ih]

theorem transRunToolEvents (tcs : List ToolCall) (s : TransState) :
    transRun s (tcs.flatMap
        (fun tc => [IEvent.toolStart tc.name tc.args, IEvent.toolEnd tc.name tc.result]))
      = (s, tcs.flatMap
            (fun tc => [OEvent.tool_start tc.name tc.args, OEvent.tool_end tc.name tc.result])) := by
  induction tcs with
  | nil => simp [transRun]
  | cons tc rest ih =>
      rw [List.flatMap_cons, List.flatMap_cons, transRunAppend]
      have h2 : transRun s [IEvent.toolStart tc.name tc.args, IEvent.toolEnd tc.name tc.result]
          = (s, [OEvent.tool_start tc.name tc.args, OEvent.tool_end tc.name tc.result]) := by
        simp [transRun, transStep]
      rw [h2, ih]

theorem completedNumsToolEvents (tcs : List ToolCall) :
    completedNums (tcs.flatMap
        (fun tc => [OEvent.tool_start tc.name tc.args, OEvent.tool_end tc.name tc.result])) = [] := by
  induction tcs with
  | nil => simp [completedNums]
  | cons tc rest ih => simp [completedNums] at ih ⊢; exact ih

theorem stepDiffsCons (a b : PlanStep) (l1 l2 : List PlanStep) :
    stepDiffs (b :: l2) (a :: l1)
      = (if a.status = "completed" ∧ b.status ≠ "completed"
         then [(a.step_number, a.description)] else []) ++ stepDiffs l2 l1 := by
  simp only [stepDiffs, List.zip_cons_cons, List.filterMap_cons]
  split_ifs <;> simp

theorem stepDiffsSelf (p : List PlanStep) : stepDiffs p p = [] := by
  induction p with
  | nil => rfl
  | cons a l ih =>
      have hcond : ¬ (a.status = "completed" ∧ a.status ≠ "completed") :=
        fun hh => hh.2 hh.1
      rw [stepDiffsCons, if_neg hcond, ih]
      rfl

theorem stepDiffsSetLen (p : List PlanStep) (st : PlanStep) :
    ∀ i, (stepDiffs p (p.set i st)).length ≤ 1 := by
  induction p with
  | nil => intro i; simp [stepDiffs]
  | cons a l ih =>
      intro i
      cases i with
      | zero =>
          rw [List.set_cons_zero, stepDiffsCons, stepDiffsSelf]
          split_ifs <;> simp
      | succ i =>
          have hcond : ¬ (a.status = "completed" ∧ a.status ≠ "completed") :=
            fun hh => hh.2 hh.1
          rw [List.set_cons_succ, stepDiffsCons, if_neg hcond]
          simpa using ih i

theorem mainUpdateTools (plan : List PlanStep) (cs : Nat) (pn : Bool)
    (tcs : List ToolCall) (h : ¬ tcs.isEmpty) :
    mainUpdate plan cs pn tcs = (plan, cs) := by
  have h2 : tcs.isEmpty = false := by
    cases tcs with
    | nil => exact absurd rfl h
    | cons a l => rfl
  unfold mainUpdate
  rw [h2]
  simp

theorem stepDiffsMainUpdateLen (plan : List PlanStep) (cs : Nat) (pn : Bool) :
    (stepDiffs plan (mainUpdate plan cs pn []).1).length ≤ 1 := by
  unfold mainUpdate
  split_ifs with h1 h2
  · cases hg : plan.get? cs with
    | some st => simpa [hg] using stepDiffsSetLen plan _ cs
    | none => simp [hg, stepDiffsSelf]
  · exact absurd rfl h2
  · simp [stepDiffsSelf]

/-- Completions emitted while the translator processes one whole MAIN/TOOL
loop: at most one in total, because a step can only complete on the final
MAIN visit (a response without tool calls ends the loop), and the
translator's `last_plan` tracks the loop's plan (or stays empty). -/
theorem completedNumsPsc (l : List (Nat × Json)) :
    completedNums (l.map (fun sd => OEvent.plan_step_completed sd.1 sd.2))
      = l.map (fun sd => sd.1) := by
  induction l with
  | nil => rfl
  | cons a t ih =>
      simp [completedNums] at ih ⊢
      exact ih

theorem completedNumsNodeEndCons (n : String) (l : List OEvent) :
    completedNums (OEvent.node_end n :: l) = completedNums l := by
  simp [completedNums, List.filterMap_cons]

theorem loopCompletedLen (rs : List MainResp) :
    ∀ (plan : List PlanStep) (cs : Nat) (pn : Bool) (msgs : List Message)
      (s : TransState),
    s.in_query = false → s.current_node ≠ some "MAIN" →
    (s.last_plan = plan ∨ s.last_plan = []) →
    (completedNums (transRun s (runMainLoop plan cs pn msgs rs)).2).length ≤ 1 := by
  induction rs with
  | nil =>
      intro plan cs pn msgs s _ _ _
      simp [runMainLoop, transRun, completedNums]
  | cons r rest ih =>
      intro plan cs pn msgs s hq hm hlp
      simp only [runMainLoop]
      by_cases htc : r.tool_calls.isEmpty
      · -- last iteration: the response carries no tool calls, the loop ends
        have htc2 : r.tool_calls = [] := List.isEmpty_iff.mp htc
        have hC : ¬ (shouldContinue (msgs ++ [Message.ai r.content r.tool_calls]) = "continue") := by
          rw [shouldContinueConcat]
          simp [htc]
        rw [if_neg hC]
        simp only [List.append_assoc]
        rw [transRunAppend, transRunSingle, transStepStartMain s hm]
        dsimp only
        rw [transRunAppend]
        rw [transRunChatStreamsState]
        rw [transRunSingle]
        dsimp only
        by_cases hlpe : s.last_plan.isEmpty
        · rw [transStepEndMainEmpty
            { current_node := some "MAIN", last_plan := s.last_plan, in_query := false }
            _ _ rfl hlpe]
          simp only [completedNumsAppend, List.length_append, completedNumsChatStreams]
          simp [completedNums]
        · have hlpp : s.last_plan = plan := by
            cases hlp with
            | inl hh => exact hh
            | inr hh => exact absurd (hh ▸ rfl) hlpe
          rw [transStepEndMain
            { current_node := some "MAIN", last_plan := s.last_plan, in_query := false }
            _ _ rfl hlpe]
          have hdiff : (stepDiffs s.last_plan (mainUpdate plan cs pn r.tool_calls).1).length ≤ 1 := by
            rw [hlpp, htc2]
            exact stepDiffsMainUpdateLen plan cs pn
          dsimp only
          rw [completedNumsAppend, completedNumsAppend, completedNumsNodeEndCons,
            completedNumsPsc]
          simp only [completedNumsAppend, List.length_append, completedNumsChatStreams,
            List.length_map]
          simpa [completedNums] using hdiff
      · -- the response requests tools: this MAIN end completes nothing and the loop recurses
        have hupd : mainUpdate plan cs pn r.tool_calls = (plan, cs) :=
          mainUpdateTools plan cs pn r.tool_calls htc
        have hC : shouldContinue (msgs ++ [Message.ai r.content r.tool_calls]) = "continue" := by
          rw [shouldContinueConcat]
          simp [htc]
        rw [if_pos hC]
        simp only [hupd, toolPhaseEvents, List.append_assoc]
        rw [transRunAppend, transRunSingle, transStepStartMain s hm]
        dsimp only
        rw [transRunAppend]
        rw [transRunChatStreamsState]
        rw [transRunAppend, transRunSingle]
        dsimp only
        by_cases hlpe : s.last_plan.isEmpty
        · rw [transStepEndMainEmpty
            { current_node := some "MAIN", last_plan := s.last_plan, in_query := false }
            _ _ rfl hlpe]
          dsimp only
          rw [transRunAppend, transRunSingle, transStepStartTool
            { current_node := some "MAIN", last_plan := s.last_plan, in_query := false } rfl]
          dsimp only
          rw [transRunAppend, transRunToolEvents]
          dsimp only
          rw [transRunAppend, transRunSingle, transStepEndTool
            { current_node := some "TOOL", last_plan := s.last_plan, in_query := false } rfl]
          dsimp only
          have hrec := ih plan cs pn
            (msgs ++ [Message.ai r.content r.tool_calls] ++
              List.map (fun tc => Message.tool tc.result tc.id) r.tool_calls)
            { current_node := some "TOOL", last_plan := s.last_plan, in_query := false }
            rfl (by simp) hlp
          simp only [completedNumsAppend, List.length_append, completedNumsChatStreams,
            completedNumsToolEvents]
          simpa [completedNums] using hrec
        · have hlpp : s.last_plan = plan := by
            cases hlp with
            | inl hh => exact hh
            | inr hh => exact absurd (hh ▸ rfl) hlpe
          rw [transStepEndMain
            { current_node := some "MAIN", last_plan := s.last_plan, in_query := false }
            _ _ rfl hlpe]
          dsimp only
          rw [transRunAppend, transRunSingle, transStepStartTool
            { current_node := some "MAIN", last_plan := plan, in_query := false } rfl]
          dsimp only
          rw [transRunAppend, transRunToolEvents]
          dsimp only
          rw [transRunAppend, transRunSingle, transStepEndTool
            { current_node := some "TOOL", last_plan := plan, in_query := false } rfl]
          dsimp only
          have hrec := ih plan cs pn
            (msgs ++ [Message.ai r.content r.tool_calls] ++
              List.map (fun tc => Message.tool tc.result tc.id) r.tool_calls)
            { current_node := some "TOOL", last_plan := plan, in_query := false }
            rfl (by simp) (Or.inl rfl)
          have hdiff0 : stepDiffs s.last_plan plan = [] := by
            rw [hlpp]
            exact stepDiffsSelf plan
          simp only [completedNumsAppend, List.length_append, completedNumsChatStreams,
            completedNumsToolEvents, hdiff0]
          simpa [completedNums] using hrec

theorem pairwiseLenLeOne (l : List Nat) (h : l.length ≤ 1) :
    List.Pairwise (fun a b => a < b) l := by
  match l, h with
  | [], _ => exact List.Pairwise.nil
  | [a], _ => simp

theorem transStepEndQuery (s : TransState) (p : List PlanStep) (cs : Nat) (pn : Bool)
    (h : s.current_node = some "QUERY") :
    transStep s (.nodeEnd "QUERY" (.dict (some p) (some cs) (some pn)))
      = (if pn ∧ ¬ p.isEmpty
         then ({ s with in_query := false, last_plan := p },
               [.node_end "QUERY", .plan_created p])
         else ({ s with in_query := false }, [.node_end "QUERY"])) := by
  simp [transStep, h]

/-- C4 (confirmed): over every plan-agent run, the step numbers carried by
the emitted `plan_step_completed` events are pairwise strictly increasing —
each step number is reported at most once and the sequence is
non-decreasing.  (In fact at most one such event is ever emitted, because a
step only completes on the final MAIN visit.) -/
theorem claim4_step_completions_ordered (o : Oracle) :
    List.Pairwise (fun a b => a < b) (completedNums (translate (runPlanAgent o).1)) := by
  have hlen : (completedNums (translate (runPlanAgent o).1)).length ≤ 1 := by
    unfold translate runPlanAgent
    cases h : queryNode o.queryContent with
    | error e =>
        simp only [List.append_assoc]
        rw [transRunAppend, transRunStartQuery]
        dsimp only
        rw [transRunChatStreamsQuery _ _ rfl]
        simp [completedNums]
    | ok qr =>
        simp only [List.append_assoc]
        rw [transRunAppend, transRunStartQuery]
        dsimp only
        rw [transRunAppend, transRunChatStreamsQuery _ _ rfl]
        dsimp only
        rw [transRunAppend, transRunSingle]
        dsimp only
        rw [transStepEndQuery
          { current_node := some "QUERY", last_plan := [], in_query := true }
          _ _ _ rfl]
        by_cases hpn : qr.plan_needed = true ∧ ¬ qr.plan.isEmpty = true
        · rw [if_pos hpn]
          dsimp only
          have hrec := loopCompletedLen o.mainResponses qr.plan qr.current_step
            qr.plan_needed (prepareMessages "" none none)
            { current_node := some "QUERY", last_plan := qr.plan, in_query := false }
            rfl (by simp) (Or.inl rfl)
          simp only [completedNumsAppend, List.length_append]
          simpa [completedNums] using hrec
        · rw [if_neg hpn]
          dsimp only
          have hrec := loopCompletedLen o.mainResponses qr.plan qr.current_step
            qr.plan_needed (prepareMessages "" none none)
            { current_node := some "QUERY", last_plan := [], in_query := false }
            rfl (by simp) (Or.inr rfl)
          simp only [completedNumsAppend, List.length_append]
          simpa [completedNums] using hrec
  exact pairwiseLenLeOne _ hlen

/-! ## Claim C1: best-effort plan parsing -/

theorem anyPscFalse (l : List (Nat × Json)) :
    (l.map (fun sd => OEvent.plan_step_completed sd.1 sd.2)).any
      (fun e => match e with | OEvent.plan_created _ => true | _ => false) = false := by
  induction l with
  | nil => rfl
  | cons a t ih => simpa using ih

theorem hasPlanCreatedStep (s : TransState) (e : IEvent)
    (h : ∀ d, e ≠ IEvent.nodeEnd "QUERY" d) :
    hasPlanCreated (transStep s e).2 = false := by
  cases e with
  | nodeStart n =>
      dsimp only [transStep]
      split_ifs <;> simp [hasPlanCreated]
  | nodeEnd n d =>
      have hn : ¬ n = "QUERY" := fun hh => h d (by rw [hh])
      cases d with
      | dict p cst pn =>
          dsimp only [transStep]
          split_ifs <;> simp_all [hasPlanCreated, anyPscFalse]
      | nondict =>
          dsimp only [transStep]
          split_ifs <;> simp_all [hasPlanCreated]
  | chatStream c =>
      dsimp only [transStep]
      split_ifs <;> simp [hasPlanCreated]
  | toolStart n inp => simp [transStep, hasPlanCreated]
  | toolEnd n out => simp [transStep, hasPlanCreated]

theorem hasPlanCreatedRun (evs : List IEvent) (s : TransState)
    (h : ∀ d, IEvent.nodeEnd "QUERY" d ∉ evs) :
    hasPlanCreated (transRun s evs).2 = false := by
  induction evs generalizing s with
  | nil => simp [transRun, hasPlanCreated]
  | cons e es ih =>
      have he : ∀ d, e ≠ IEvent.nodeEnd "QUERY" d := by
        intro d hh
        exact h d (by rw [hh]; exact List.mem_cons_self _ _)
      have hes : ∀ d, IEvent.nodeEnd "QUERY" d ∉ es := by
        intro d hh
        exact h d (List.mem_cons_of_mem _ hh)
      simp [transRun, hasPlanCreatedAppend, hasPlanCreatedStep s e he, ih _ hes]

/-- The MAIN/TOOL loop never produces a QUERY node-end event. -/
theorem runMainLoopNoQueryEnd (rs : List MainResp) :
    ∀ (plan : List PlanStep) (cs : Nat) (pn : Bool) (msgs : List Message)
      (d : NodeData), IEvent.nodeEnd "QUERY" d ∉ runMainLoop plan cs pn msgs rs := by
  induction rs with
  | nil =>
      intro plan cs pn msgs d
      simp [runMainLoop]
  | cons r rest ih =>
      intro plan cs pn msgs d
      simp only [runMainLoop]
      split_ifs <;>
        simp [toolPhaseEvents, List.mem_append, List.mem_map, List.mem_flatMap, ih]

/-- Parse-failure branch of the QUERY node: everything that ends in
`plan_data = {"plan_needed": False}` yields no plan, index 0 and
`plan_needed = False`. -/
theorem queryNodeParseFailure (c : LCContent) (h : extractParse c = none) :
    queryNode c = .ok ⟨[], 0, false⟩ := by
  unfold queryNode
  rw [h]
  rfl

/-- A QUERY result with `plan_needed = False` always carries an empty plan
and step index 0. -/
theorem queryNodeNotNeeded (c : LCContent) (qr : QueryResult)
    (h : queryNode c = .ok qr) (hpn : qr.plan_needed = false) :
    qr.plan = [] ∧ qr.current_step = 0 := by
  unfold queryNode at h
  dsimp only at h
  split at h
  · split at h
    · exact Except.noConfusion h
    · cases h
      simp at hpn
  · cases h
    exact ⟨rfl, rfl⟩

/-- C1 (corrected): plan parsing is best-effort in the following sense —
(1) every failure of the brace-window extraction or of `json.loads`
(including non-string response content) yields `plan_needed = false`, an
empty plan and step index 0; (2) whenever QUERY yields
`plan_needed = false` the plan is empty; and (3) such a run proceeds as an
unplanned reasoning loop without raising and never emits a `plan_created`
event.  The original claim additionally asserted that non-string step
content is treated as a parse failure; it is not (see the
counterexample): a parsed object with truthy `plan_needed` and a `steps`
list yields a plan — and a `plan_created` event — whatever the element
types, and a non-iterable `steps` value raises instead of degrading. -/
theorem claim1_plan_parse_corrected :
    (∀ c, extractParse c = none → queryNode c = .ok ⟨[], 0, false⟩)
    ∧ (∀ c qr, queryNode c = .ok qr → qr.plan_needed = false →
        qr.plan = [] ∧ qr.current_step = 0)
    ∧ (∀ (o : Oracle) (qr : QueryResult), queryNode o.queryContent = .ok qr →
        qr.plan_needed = false →
        (runPlanAgent o).2 = false
        ∧ hasPlanCreated (translate (runPlanAgent o).1) = false) := by
  refine ⟨queryNodeParseFailure, queryNodeNotNeeded, ?_⟩
  intro o qr h hpn
  obtain ⟨hplan, hcs⟩ := queryNodeNotNeeded _ _ h hpn
  constructor
  · simp [runPlanAgent, h]
  · unfold translate runPlanAgent
    simp only [h]
    rw [hplan, hcs, hpn]
    simp only [List.append_assoc]
    rw [transRunAppend, transRunStartQuery]
    dsimp only
    rw [transRunAppend, transRunChatStreamsQuery _ _ rfl]
    dsimp only
    rw [transRunAppend, transRunSingle]
    dsimp only
    rw [transStepEndQuery
      { current_node := some "QUERY", last_plan := [], in_query := true }
      _ _ _ rfl]
    rw [if_neg (by simp)]
    dsimp only
    have hloop := hasPlanCreatedRun
      (runMainLoop [] 0 false (prepareMessages "" none none) o.mainResponses)
      { current_node := some "QUERY", last_plan := [], in_query := false }
      (fun d => runMainLoopNoQueryEnd o.mainResponses [] 0 false _ d)
    simp only [hasPlanCreatedAppend, hloop]
    rfl

/-- Counterexample to C1 as stated: the model response
`{"plan_needed": true, "steps": [1]}` has non-string step content, yet the
QUERY node parses it into a one-step plan with `plan_needed = true` (the
integer is kept as the step description), and the run emits a
`plan_created` event — the claimed degradation to `plan_needed = false`
with no `plan_created` event does not happen. -/
theorem claim1_counterexample :
    queryNode (LCContent.str "\x7b\"plan_needed\": true, \"steps\": [1]\x7d")
      = .ok ⟨[⟨1, Json.num 1, "pending"⟩], 0, true⟩
    ∧ hasPlanCreated (translate (runPlanAgent
        ⟨LCContent.str "\x7b\"plan_needed\": true, \"steps\": [1]\x7d", [],
         [⟨[], "done", []⟩]⟩).1) = true := by
  constructor
  · rfl
  · rfl

/-- Witness for C1 (amended): a response with no JSON object at all
degrades to an unplanned run that raises nothing and emits no
`plan_created`. -/
theorem claim1_witness :
    (runPlanAgent ⟨LCContent.str "no json here", ["tok"],
        [⟨["Hello"], "Hello", []⟩]⟩).2 = false
    ∧ hasPlanCreated (translate (runPlanAgent ⟨LCContent.str "no json here", ["tok"],
        [⟨["Hello"], "Hello", []⟩]⟩).1) = false :=
  claim1_plan_parse_corrected.2.2
    ⟨LCContent.str "no json here", ["tok"], [⟨["Hello"], "Hello", []⟩]⟩
    ⟨[], 0, false⟩ (by rfl) rfl

/-- Witness for C6: a concrete run whose single response requests no
tools. -/
theorem claim6_witness :
    reactRun [Message.system "sp", Message.human "hi"]
        [⟨["Hi"], "Hi there", []⟩]
      = ([Message.system "sp", Message.human "hi", Message.ai "Hi there" []], ["agent"])
    ∧ "tools" ∉ (reactRun [Message.system "sp", Message.human "hi"]
        [⟨["Hi"], "Hi there", []⟩]).2 :=
  claim6_no_tools_ends [Message.system "sp", Message.human "hi"]
    ⟨["Hi"], "Hi there", []⟩ [] rfl

/-! ## Claim C5: client resolution order -/

/-- C5 (corrected): over any pool whose initialized profiles have non-empty
names, providers and models, and whose default client is absent only when
the profile map is empty (both invariants hold of every loader-built pool),
`ChatService._get_client` computes exactly the specification's resolution
order — name match, then (provider, model) under a hint, then model scan,
then default — and returns no client only when NO profile was successfully
initialized.  The embedding is a pure function of the pool state, so
repeated calls with the same inputs return the same profile by
reflexivity.  The original claim's "only when no profiles are configured"
is corrected to "only when no profiles were successfully initialized": a
configured profile whose placeholders fail to resolve is excluded, and if
all are excluded resolution fails despite profiles being configured (see
the counterexample). -/
theorem claim5_resolution_corrected (ps : PoolState) (sel : String)
    (hint : Option String)
    (hprof : ∀ p ∈ ps.profiles, p.1 ≠ "" ∧ p.2.provider ≠ "" ∧ p.2.model ≠ "")
    (hdef : ps.default_client = none → ps.profiles = []) :
    serviceGetClient ps sel hint = specResolve ps sel hint
    ∧ (serviceGetClient ps sel hint = none → ps.profiles = []) := by
  have heqv : serviceGetClient ps sel hint = specResolve ps sel hint := by
    by_cases hsel : sel = ""
    · subst hsel
      have hname0 : List.find? (fun p => p.1 = "") ps.profiles = none := by
        rw [List.find?_eq_none]
        intro p hp
        simpa using (hprof p hp).1
      have hmodel0 : List.find? (fun p => p.2.model = "") ps.profiles = none := by
        rw [List.find?_eq_none]
        intro p hp
        simpa using (hprof p hp).2.2
      have hpm0 : ∀ h : String,
          List.find? (fun p => decide (p.2.provider = h) && decide (p.2.model = ""))
            ps.profiles = none := by
        intro h
        rw [List.find?_eq_none]
        intro p hp
        simp
        intro _
        exact (hprof p hp).2.2
      unfold serviceGetClient specResolve llmGetClient llmGetClientByProviderAndModel
      cases hint with
      | none =>
          cases hd : ps.default_client <;> simp [hname0, hmodel0, hd]
      | some h =>
          by_cases hh : h = ""
          · subst hh
            cases hd : ps.default_client <;>
              simp [hname0, hmodel0, hpm0 "", hd]
          · cases hd : ps.default_client <;>
              simp [hname0, hmodel0, hpm0 h, hd, hh]
    · unfold serviceGetClient specResolve llmGetClient llmGetClientByProviderAndModel
      cases hfn : List.find? (fun p => p.1 = sel) ps.profiles with
      | some p => simp [hsel, hfn]
      | none =>
          cases hint with
          | none =>
              cases hfm : List.find? (fun p => p.2.model = sel) ps.profiles <;>
                simp [hsel, hfn, hfm]
          | some h =>
              by_cases hh : h = ""
              · subst hh
                have hprov0 :
                    List.find? (fun p => decide (p.2.provider = "") && decide (p.2.model = sel))
                      ps.profiles = none := by
                  rw [List.find?_eq_none]
                  intro p hp
                  simp
                  intro hc
                  exact absurd hc (hprof p hp).2.1
                cases hfm : List.find? (fun p => p.2.model = sel) ps.profiles <;>
                  simp [hsel, hfn, hprov0, hfm]
              · cases hpm : List.find?
                    (fun p => decide (p.2.provider = h) && decide (p.2.model = sel))
                    ps.profiles with
                | some q => simp [hsel, hfn, hh, hpm]
                | none =>
                    cases hfm : List.find? (fun p => p.2.model = sel) ps.profiles <;>
                      simp [hsel, hfn, hh, hpm, hfm]
  refine ⟨heqv, ?_⟩
  intro hres
  rw [heqv] at hres
  apply hdef
  unfold specResolve at hres
  split at hres
  · exact Option.noConfusion hres
  · split at hres
    · exact Option.noConfusion hres
    · split at hres
      · exact Option.noConfusion hres
      · exact hres

/-- Counterexample to C5 as stated: one profile is configured, but its
`base_url`/`api_key` placeholders fail to resolve, so it is excluded from
the pool and resolution returns no client even though the configured
profile list is non-empty. -/
theorem claim5_counterexample :
    serviceGetClient (loadFromSettings envEmpty cfgUnresolved) "a" none = none
    ∧ cfgUnresolved ≠ [] := by
  constructor
  · rfl
  · simp [cfgUnresolved]

/-- Witness for C5 at a concrete two-profile pool: resolution by model name
under a provider hint agrees with the specification order and yields a
client. -/
theorem claim5_witness :
    serviceGetClient poolW "gpt-4o-mini" (some "azureopenai")
      = specResolve poolW "gpt-4o-mini" (some "azureopenai")
    ∧ (serviceGetClient poolW "gpt-4o-mini" (some "azureopenai") = none →
        poolW.profiles = []) :=
  claim5_resolution_corrected poolW "gpt-4o-mini" (some "azureopenai")
    (by decide) (by decide)

/-! ## Claim C10: default-client selection at load time -/

/-- Characterization of the loader's fold: the profile map accumulates the
initialized profiles via dict insertion, and the default/flag pair is
driven by the first initialized profile whose config marks it default. -/
theorem loadAuxSpec (env : String → Option String) (cfg : List ProfileConfig) :
    ∀ (ps : List (String × Profile)) (dc : Option Profile) (df : Bool),
    loadAux env cfg ps dc df
      = (insertAllProfiles ps (initializedProfiles env cfg),
         if df then (dc, true)
         else
           match (initializedProfiles env cfg).find? (fun c => c.default) with
           | some c => (some c, true)
           | none => (dc, false)) := by
  induction cfg with
  | nil =>
      intro ps dc df
      cases df <;> simp [loadAux, insertAllProfiles, initializedProfiles]
  | cons c rest ih =>
      intro ps dc df
      simp only [loadAux, initializedProfiles, List.filterMap_cons]
      cases hai : attemptInit env c with
      | none =>
          simpa [initializedProfiles] using ih ps dc df
      | some client =>
          dsimp only
          by_cases hdf : client.default ∧ ¬ df
          · rw [if_pos hdf]
            rw [ih]
            obtain ⟨hcd, hdf2⟩ := hdf
            have hdfF : df = false := by
              cases df
              · rfl
              · exact absurd rfl hdf2
            simp [insertAllProfiles, initializedProfiles, hcd, hdfF,
              List.find?_cons]
          · rw [if_neg hdf]
            rw [ih]
            by_cases hdfb : df
            · simp [insertAllProfiles, initializedProfiles, hdfb]
            · have hcd : client.default = false := by
                cases hc : client.default
                · rfl
                · exact absurd ⟨hc, hdfb⟩ hdf
              have hdfF : df = false := by
                cases df
                · rfl
                · exact absurd rfl hdfb
              simp [insertAllProfiles, initializedProfiles, hcd, hdfF,
                List.find?_cons]

theorem poolDictInsertNonempty (ps : List (String × Profile)) (k : String)
    (v : Profile) : poolDictInsert ps k v ≠ [] := by
  unfold poolDictInsert
  split_ifs with h
  · intro hc
    rw [List.map_eq_nil_iff] at hc
    subst hc
    simp at h
  · simp

theorem insertAllNonempty (l : List Profile) :
    ∀ ps : List (String × Profile), ps ≠ [] ∨ l ≠ [] →
    insertAllProfiles ps l ≠ [] := by
  induction l with
  | nil =>
      intro ps h
      simp only [insertAllProfiles, List.foldl_nil]
      cases h with
      | inl hh => exact hh
      | inr hh => exact absurd rfl hh
  | cons c rest ih =>
      intro ps _
      simp only [insertAllProfiles, List.foldl_cons]
      exact ih _ (Or.inl (poolDictInsertNonempty ps c.name c))

theorem insertAllDistinct (l : List Profile) :
    ∀ ps : List (String × Profile),
    (∀ p ∈ l, ∀ q ∈ ps, q.1 ≠ p.name) →
    l.Pairwise (fun a b => a.name ≠ b.name) →
    insertAllProfiles ps l = ps ++ l.map (fun c => (c.name, c)) := by
  induction l with
  | nil => intro ps _ _; simp [insertAllProfiles]
  | cons c rest ih =>
      intro ps hdisj hpw
      have hins : poolDictInsert ps c.name c = ps ++ [(c.name, c)] := by
        unfold poolDictInsert
        rw [if_neg]
        intro hany
        rw [List.any_eq_true] at hany
        obtain ⟨q, hq, hq2⟩ := hany
        exact hdisj c (List.mem_cons_self _ _) q hq (by simpa using hq2)
      simp only [insertAllProfiles, List.foldl_cons] at ih ⊢
      rw [hins]
      rw [ih (ps ++ [(c.name, c)])]
      · simp
      · intro p hp q hq
        rcases List.mem_append.mp hq with hq1 | hq2
        · exact hdisj p (List.mem_cons_of_mem _ hp) q hq1
        · have : q = (c.name, c) := by simpa using hq2
          subst this
          have := (List.pairwise_cons.mp hpw).1 p hp
          simpa using this
      · exact (List.pairwise_cons.mp hpw).2

/-- C10 (corrected): after loading, the designated default client is the
first successfully initialized profile whose configuration marks it as
default; when no initialized profile is marked default AND the initialized
profiles have pairwise distinct names, it is the first successfully
initialized profile in configuration order; and it is absent exactly when
no profile initialized successfully.  Without the distinct-names
qualification the fallback clause of the original claim fails: a duplicate
name makes the map retain the most recently initialized client under the
first name (see the counterexample). -/
theorem claim10_default_selection (env : String → Option String)
    (cfg : List ProfileConfig)
    (hnames : (initializedProfiles env cfg).Pairwise (fun a b => a.name ≠ b.name)) :
    (∀ c, (initializedProfiles env cfg).find? (fun p => p.default) = some c →
      (loadFromSettings env cfg).default_client = some c)
    ∧ (∀ c cs, (initializedProfiles env cfg).find? (fun p => p.default) = none →
        initializedProfiles env cfg = c :: cs →
        (loadFromSettings env cfg).default_client = some c)
    ∧ ((loadFromSettings env cfg).default_client = none
        ↔ initializedProfiles env cfg = []) := by
  refine ⟨?_, ?_, ?_⟩
  · intro c hf
    unfold loadFromSettings
    rw [loadAuxSpec env cfg [] none false]
    simp [hf]
  · intro c cs hf hI
    unfold loadFromSettings
    rw [loadAuxSpec env cfg [] none false]
    have hmap : insertAllProfiles [] (initializedProfiles env cfg)
        = (initializedProfiles env cfg).map (fun c => (c.name, c)) := by
      rw [insertAllDistinct _ [] (by simp) hnames]
      simp
    rw [hI] at hf
    rw [hmap, hI, hf]
    simp
  · constructor
    · intro hnone
      by_contra hne
      have hne2 : initializedProfiles env cfg ≠ [] := hne
      unfold loadFromSettings at hnone
      rw [loadAuxSpec env cfg [] none false] at hnone
      cases hf : (initializedProfiles env cfg).find? (fun p => p.default) with
      | some c =>
          rw [hf] at hnone
          simp at hnone
      | none =>
          rw [hf] at hnone
          have hpsne : insertAllProfiles [] (initializedProfiles env cfg) ≠ [] :=
            insertAllNonempty _ [] (Or.inr hne2)
          cases hps : insertAllProfiles [] (initializedProfiles env cfg) with
          | nil => exact hpsne hps
          | cons p rest =>
              rw [hps] at hnone
              simp at hnone
    · intro hI
      unfold loadFromSettings
      rw [loadAuxSpec env cfg [] none false]
      rw [hI]
      simp [insertAllProfiles]

/-- Counterexample to C10 as stated: two configured profiles share the name
`x`, neither marked default.  Both initialize successfully; the first
successfully initialized profile is the one with model `m1`, but the
loader's fallback picks the map entry under `x`, which by dict-assignment
semantics holds the LAST initialized client (model `m2`). -/
theorem claim10_counterexample :
    (loadFromSettings envEmpty cfgDup).default_client
        = some { name := "x", provider := "openai", model := "m2",
                 base_url := "u", api_key := "k", default := false }
    ∧ initializedProfiles envEmpty cfgDup
        = [{ name := "x", provider := "openai", model := "m1",
             base_url := "u", api_key := "k", default := false },
           { name := "x", provider := "openai", model := "m2",
             base_url := "u", api_key := "k", default := false }]
    ∧ (loadFromSettings envEmpty cfgDup).default_client
        ≠ some { name := "x", provider := "openai", model := "m1",
                 base_url := "u", api_key := "k", default := false } := by
  refine ⟨rfl, rfl, ?_⟩
  decide

/-- Witness for C10 (amended) at a concrete distinct-names configuration:
the default-marked profile `b` is selected. -/
theorem claim10_witness :
    (loadFromSettings envEmpty cfgGood).default_client
      = some { name := "b", provider := "azureopenai", model := "m2",
               base_url := "u", api_key := "k", default := true } :=
  (claim10_default_selection envEmpty cfgGood (by decide)).1
    { name := "b", provider := "azureopenai", model := "m2",
      base_url := "u", api_key := "k", default := true } (by decide)

end AiStudio
